import Mathlib

/-!
Shallow embedding of the binary persistence component (`rcp::Recipe`,
`src/src/Persistence/src/recipe.cpp`) of the cpp-apptools repository.

Modelling choices:
* caller memory is a byte heap `Heap := Nat → Nat` (address to byte value);
  a registered variable is a `RecipeItem` holding an abstract address `ptr`
  and a byte count `size`, exactly as the C++ `struct RecipeItem`;
* the `std::unordered_map<std::string, RecipeItem*>` registry is an
  association list with first-match lookup (keys are unique in an
  `unordered_map`, so first-match agrees with the map semantics);
* identifiers are byte lists (`std::string` contents), path components are
  `List Char`;
* the backing file is a flat byte list; the `size_t` length fields written
  by `file.write((char*)&size, sizeof(size))` are modelled as 8 base-256
  digits, least significant first (host-native width and order, as the spec
  states);
* `load_recipe`'s stream loop is a fueled recursion (`fuel = stream
  length` always suffices since every iteration consumes at least 16
  bytes); a file truncated mid-entry, whose behaviour the reference code
  leaves undefined, is mapped to `none`.
-/

namespace rcp

/-- Caller memory: a total map from byte addresses to byte values. -/
abbrev Heap : Type := Nat → Nat

/-- Mirror of `struct RecipeItem { char *ptr; size_t size; }`. -/
structure RecipeItem where
  ptr : Nat
  size : Nat
  deriving DecidableEq

/-- Identifier: the byte content of the `std::string` key. -/
abbrev VarId : Type := List Nat

/-- The registry `std::unordered_map<std::string, RecipeItem*>`. -/
abbrev RegMap : Type := List (VarId × RecipeItem)

/-- `_map.count(id) > 0` / `_map[id]`: first-match association lookup. -/
def lookupItem : RegMap → VarId → Option RecipeItem
  | [], _ => none
  | (k, v) :: rest, i => if k = i then some v else lookupItem rest i

/-- `_map.erase(id)`: remove the (unique) entry with the given key. -/
def eraseKey : RegMap → VarId → RegMap
  | [], _ => []
  | (k, v) :: rest, i => if k = i then rest else (k, v) :: eraseKey rest i

/-- Write `data` into the heap starting at address `a`
(the copy loop `item->ptr[i] = data[i]`). -/
def writeBytes (h : Heap) (a : Nat) (data : List Nat) : Heap :=
  fun x => if a ≤ x ∧ x < a + data.length then data.getD (x - a) 0 else h x

/-- Read `n` bytes from the heap starting at address `a`
(the source of `file.write(var.second->ptr, var.second->size)`). -/
def readBytes (h : Heap) (a n : Nat) : List Nat :=
  (List.range n).map fun i => h (a + i)

/-- The 8 bytes of a `size_t` value, least-significant first, as written by
`file.write((char*)&size, sizeof(size))`. -/
def encodeSize (n : Nat) : List Nat :=
  [n % 256, n / 256 % 256, n / 65536 % 256, n / 16777216 % 256,
   n / 4294967296 % 256, n / 1099511627776 % 256,
   n / 281474976710656 % 256, n / 72057594037927936 % 256]

/-- The `size_t` value recovered from the first 8 bytes of a stream, as read
by `file.read((char*)&size, sizeof(size))`. -/
def decodeSize (bs : List Nat) : Nat :=
  (bs.take 8).foldr (fun b acc => b + 256 * acc) 0

/-- Heap update performed for one decoded file entry (`recipe.cpp` lines
161-179): look the identifier up; skip on unknown id or size mismatch,
otherwise copy the payload into the registered memory. -/
def applyEntry (m : RegMap) (h : Heap) (i : VarId) (valLen : Nat)
    (data : List Nat) : Heap :=
  match lookupItem m i with
  | none => h
  | some item => if item.size = valLen then writeBytes h item.ptr data else h

/-- One iteration of the read phase of `Recipe::load_recipe`'s loop
(lines 138-158): read an 8-byte id length, the id bytes, an 8-byte value
length, the payload bytes, and drop one padding byte when
`(idLen + valLen)` is odd.  Returns the decoded identifier, value length,
payload and the remaining stream; `none` models the undefined behaviour on
a stream truncated mid-entry. -/
def parseEntry (s : List Nat) : Option (VarId × Nat × List Nat × List Nat) :=
  if 8 ≤ s.length then
    let idLen := decodeSize s
    let s1 := s.drop 8
    if idLen ≤ s1.length then
      let i := s1.take idLen
      let s2 := s1.drop idLen
      if 8 ≤ s2.length then
        let valLen := decodeSize s2
        let s3 := s2.drop 8
        if valLen ≤ s3.length then
          let data := s3.take valLen
          let s4 := s3.drop valLen
          some (i, valLen, data,
                if (idLen + valLen) % 2 = 1 then s4.drop 1 else s4)
        else none
      else none
    else none
  else none

/-- The entry loop of `Recipe::load_recipe`, one fuel unit per entry
(a fuel of the stream length always suffices, as each entry spans at least
16 bytes): parse one entry, apply the merge policy of `applyEntry`,
repeat until the stream is empty. -/
def load_loop_fuel (m : RegMap) : Nat → Heap → List Nat → Option Heap
  | _, h, [] => some h
  | 0, _, _ :: _ => none
  | fuel + 1, h, b :: t =>
    match parseEntry (b :: t) with
    | none => none
    | some (i, valLen, data, rest) =>
      load_loop_fuel m fuel (applyEntry m h i valLen data) rest

/-- The body of `Recipe::load_recipe` after the init guard: run the entry
loop over the whole file content. -/
def load_loop (m : RegMap) (h : Heap) (s : List Nat) : Option Heap :=
  load_loop_fuel m s.length h s

/-- One encoded entry as written by `Recipe::save_recipe` lines 200-207:
id length, id bytes, value length, the variable's current bytes, then one
zero padding byte iff the id length plus the value length is odd. -/
def encodeEntry (h : Heap) (i : VarId) (item : RecipeItem) : List Nat :=
  encodeSize i.length ++ i ++ encodeSize item.size ++
    readBytes h item.ptr item.size ++
    (if (i.length + item.size) % 2 = 1 then [0] else [])

/-- The file content produced by `Recipe::save_recipe`: every registry
entry in iteration order. -/
def save_bytes : RegMap → Heap → List Nat
  | [], _ => []
  | (i, item) :: rest, h => encodeEntry h i item ++ save_bytes rest h

/-- Mirror of `class Recipe`'s private state (`_folder`, `_extension`,
`_name`, `_map`, `_init`). -/
structure Recipe where
  folder : List Char
  extension : List Char
  name : List Char
  map : RegMap
  initFlag : Bool
  deriving DecidableEq

/-- The default constructor `Recipe::Recipe()`: blank folder and name,
extension `.rcp`, empty registry, not initialized. -/
def recipeDefault : Recipe :=
  ⟨[], ['.', 'r', 'c', 'p'], [], [], false⟩

/-- The three-argument constructor `Recipe::Recipe(name, folder,
extension)`: every string is stored exactly as supplied. -/
def recipeOf (nm folder ext : List Char) : Recipe :=
  ⟨folder, ext, nm, [], false⟩

/-- `Recipe::is_init`. -/
def is_init (r : Recipe) : Bool :=
  r.initFlag

/-- `Recipe::get_path`: `_folder + _name + _extension`. -/
def get_path (r : Recipe) : List Char :=
  r.folder ++ r.name ++ r.extension

/-- `Recipe::stop`: clear the initialized flag. -/
def stop (r : Recipe) : Recipe :=
  ⟨r.folder, r.extension, r.name, r.map, false⟩

/-- `Recipe::set_name`, which ends by calling `stop`. -/
def set_name (r : Recipe) (nm : List Char) : Recipe :=
  ⟨r.folder, r.extension, nm, r.map, false⟩

/-- `Recipe::set_folder`: append a separator unless the argument is empty
or already ends with one; then `stop`. -/
def set_folder (r : Recipe) (folder : List Char) : Recipe :=
  ⟨folder ++ (if folder ≠ [] ∧ folder.getLast? ≠ some '/' then ['/'] else []),
   r.extension, r.name, r.map, false⟩

/-- `Recipe::set_extension`: prepend a dot unless the argument is empty or
already starts with one; then `stop`. -/
def set_extension (r : Recipe) (ext : List Char) : Recipe :=
  ⟨r.folder,
   (if ext ≠ [] ∧ ext.head? ≠ some '.' then ['.'] else []) ++ ext,
   r.name, r.map, false⟩

/-- `Recipe::init`.  The filesystem collaborator (path exists, or all
directories and the file were created without error) is abstracted by the
boolean `fsOk`; an empty name fails before any filesystem access. -/
def init (r : Recipe) (fsOk : Bool) : Bool × Recipe :=
  if r.name = [] then (false, r)
  else if fsOk then (true, ⟨r.folder, r.extension, r.name, r.map, true⟩)
  else (false, ⟨r.folder, r.extension, r.name, r.map, false⟩)

/-- `Recipe::add_variable`: refuse when the identifier is already
registered, otherwise insert. -/
def add_variable (r : Recipe) (i : VarId) (var : Nat) (size : Nat) :
    Bool × Recipe :=
  if (lookupItem r.map i).isSome then (false, r)
  else (true, ⟨r.folder, r.extension, r.name,
               r.map ++ [(i, ⟨var, size⟩)], r.initFlag⟩)

/-- `Recipe::remove_variable`: refuse when the identifier is absent,
otherwise erase its entry. -/
def remove_variable (r : Recipe) (i : VarId) : Bool × Recipe :=
  if (lookupItem r.map i).isSome then
    (true, ⟨r.folder, r.extension, r.name, eraseKey r.map i, r.initFlag⟩)
  else (false, r)

/-- `Recipe::save_recipe` acting on the store, the caller memory and the
backing file: guard on `_init`, then overwrite the file with the encoded
registry.  The returned `Recipe` is the (unmodified) store. -/
def save_recipe (r : Recipe) (h : Heap) (file : List Nat) :
    Bool × Recipe × List Nat :=
  if r.initFlag = false then (false, r, file)
  else (true, r, save_bytes r.map h)

/-- `Recipe::load_recipe`: guard on `_init`, then run the decode loop over
the file content.  The returned `Recipe` is the (unmodified) store and the
`Option Heap` is the caller memory after the merge. -/
def load_recipe (r : Recipe) (h : Heap) (file : List Nat) :
    Bool × Recipe × Option Heap :=
  if r.initFlag = false then (false, r, some h)
  else (true, r, load_loop r.map h file)

/-- All-zero caller memory (the freshly-zeroed regions of the round-trip
property). -/
def zeroHeap : Heap :=
  fun _ => 0

/-- Two address ranges do not overlap. -/
def regionDisjoint (a n b msz : Nat) : Prop :=
  a + n ≤ b ∨ b + msz ≤ a

instance (a n b msz : Nat) : Decidable (regionDisjoint a n b msz) := by
  unfold regionDisjoint; infer_instance

/-- One well-formed file entry, id and payload given, with its conditional
padding byte: `[idLen][id][valLen][val][pad?]`. -/
def entryBytes (i : VarId) (data : List Nat) : List Nat :=
  encodeSize i.length ++ i ++ encodeSize data.length ++ data ++
    (if (i.length + data.length) % 2 = 1 then [0] else [])

/-- A whole well-formed file: the concatenation of its entries. -/
def entriesBytes : List (VarId × List Nat) → List Nat
  | [] => []
  | p :: rest => entryBytes p.1 p.2 ++ entriesBytes rest

/-! Basic codec lemmas. -/

theorem encodeSize_length (n : Nat) : (encodeSize n).length = 8 := by
  simp [encodeSize]

theorem decodeSize_encodeSize (n : Nat) (hn : n < 18446744073709551616) :
    decodeSize (encodeSize n) = n := by
  simp only [decodeSize, encodeSize, List.take, List.foldr]
  omega

theorem decodeSize_take (bs : List Nat) :
    decodeSize (bs.take 8) = decodeSize bs := by
  simp [decodeSize, List.take_take]

theorem readBytes_length (h : Heap) (a n : Nat) :
    (readBytes h a n).length = n := by
  simp [readBytes]

theorem readBytes_writeBytes_self (h : Heap) (a : Nat) (data : List Nat) :
    readBytes (writeBytes h a data) a data.length = data := by
  apply List.ext_getElem
  · simp [readBytes_length]
  · intro i h1 h2
    simp only [readBytes, writeBytes, List.getElem_map, List.getElem_range]
    rw [readBytes_length] at h1
    rw [if_pos (by omega)]
    rw [List.getD_eq_getElem _ _ (by omega)]
    congr 1
    omega

theorem readBytes_writeBytes_disjoint (h : Heap) (a n b : Nat)
    (data : List Nat) (hd : regionDisjoint a n b data.length) :
    readBytes (writeBytes h b data) a n = readBytes h a n := by
  apply List.ext_getElem
  · simp [readBytes_length]
  · intro i h1 h2
    simp only [readBytes, writeBytes, List.getElem_map, List.getElem_range]
    rw [readBytes_length] at h1
    rw [if_neg]
    unfold regionDisjoint at hd
    omega

/-! Lookup lemmas. -/

theorem lookupItem_mem {m : RegMap} {i : VarId} {it : RecipeItem}
    (h : lookupItem m i = some it) : (i, it) ∈ m := by
  induction m with
  | nil => simp [lookupItem] at h
  | cons p rest ih =>
    obtain ⟨k, v⟩ := p
    by_cases hk : k = i
    · subst hk
      simp [lookupItem] at h
      subst h
      exact List.mem_cons_self _ _
    · simp [lookupItem, hk] at h
      exact List.mem_cons_of_mem _ (ih h)

theorem lookupItem_append_right {m : RegMap} {i : VarId}
    (h : lookupItem m i = none) (tl : RegMap) :
    lookupItem (m ++ tl) i = lookupItem tl i := by
  induction m with
  | nil => rfl
  | cons p rest ih =>
    obtain ⟨k, v⟩ := p
    by_cases hk : k = i
    · simp [lookupItem, hk] at h
    · rw [List.cons_append]
      rw [show lookupItem ((k, v) :: (rest ++ tl)) i = lookupItem (rest ++ tl) i
        from by simp [lookupItem, if_neg hk]]
      rw [show lookupItem ((k, v) :: rest) i = lookupItem rest i
        from by simp [lookupItem, if_neg hk]] at h
      exact ih h

theorem regionDisjoint_symm {a n b msz : Nat}
    (h : regionDisjoint a n b msz) : regionDisjoint b msz a n :=
  h.symm

/-- Entries found under distinct keys in a registry whose regions are
pairwise disjoint occupy disjoint regions. -/
theorem lookup_pairwise_disjoint {m : RegMap}
    (hp : m.Pairwise fun p q =>
      regionDisjoint p.2.ptr p.2.size q.2.ptr q.2.size)
    {i j : VarId} {it jt : RecipeItem} (hij : i ≠ j)
    (hi : lookupItem m i = some it) (hj : lookupItem m j = some jt) :
    regionDisjoint it.ptr it.size jt.ptr jt.size := by
  have hsym : Symmetric fun p q : VarId × RecipeItem =>
      regionDisjoint p.2.ptr p.2.size q.2.ptr q.2.size :=
    fun p q hpq => regionDisjoint_symm hpq
  have hmem_i := lookupItem_mem hi
  have hmem_j := lookupItem_mem hj
  have hne : (i, it) ≠ (j, jt) := fun hEq => hij (congrArg Prod.fst hEq)
  exact hp.forall hsym hmem_i hmem_j hne

/-! Parsing and loop lemmas. -/

theorem parseEntry_some {s : List Nat} {i : VarId} {v : Nat}
    {d rest : List Nat} (h : parseEntry s = some (i, v, d, rest)) :
    d.length = v ∧ rest.length + 16 ≤ s.length := by
  simp only [parseEntry] at h
  split_ifs at h with h1 h2 h3 h4 h5
  · simp only [Option.some.injEq, Prod.mk.injEq] at h
    obtain ⟨hi, hv, hd, hrest⟩ := h
    simp only [List.length_drop] at h2 h3 h4
    constructor
    · rw [← hd, ← hv, List.length_take]
      simp only [List.length_drop]
      omega
    · rw [← hrest]
      simp only [List.length_drop]
      omega
  · simp only [Option.some.injEq, Prod.mk.injEq] at h
    obtain ⟨hi, hv, hd, hrest⟩ := h
    simp only [List.length_drop] at h2 h3 h4
    constructor
    · rw [← hd, ← hv, List.length_take]
      simp only [List.length_drop]
      omega
    · rw [← hrest]
      simp only [List.length_drop]
      omega

theorem load_loop_fuel_nil (m : RegMap) (f : Nat) (h : Heap) :
    load_loop_fuel m f h [] = some h := by
  cases f <;> rfl

theorem load_loop_fuel_congr (m : RegMap) :
    ∀ (f₁ : Nat) (f₂ : Nat) (h : Heap) (s : List Nat),
    s.length ≤ f₁ → s.length ≤ f₂ →
    load_loop_fuel m f₁ h s = load_loop_fuel m f₂ h s := by
  intro f₁
  induction f₁ with
  | zero =>
    intro f₂ h s hs1 _
    have : s = [] := List.eq_nil_of_length_eq_zero (by omega)
    subst this
    rw [load_loop_fuel_nil, load_loop_fuel_nil]
  | succ f ih =>
    intro f₂ h s hs1 hs2
    cases s with
    | nil => rw [load_loop_fuel_nil, load_loop_fuel_nil]
    | cons b t =>
      cases f₂ with
      | zero => simp at hs2
      | succ f₂' =>
        show (match parseEntry (b :: t) with
              | none => none
              | some (i, valLen, data, rest) =>
                load_loop_fuel m f (applyEntry m h i valLen data) rest) =
             (match parseEntry (b :: t) with
              | none => none
              | some (i, valLen, data, rest) =>
                load_loop_fuel m f₂' (applyEntry m h i valLen data) rest)
        cases hp : parseEntry (b :: t) with
        | none => rfl
        | some q =>
          obtain ⟨i, valLen, data, rest⟩ := q
          have hlen := (parseEntry_some hp).2
          simp only [List.length_cons] at hlen hs1 hs2
          exact ih f₂' _ rest (by omega) (by omega)

theorem load_loop_nil (m : RegMap) (h : Heap) :
    load_loop m h [] = some h :=
  load_loop_fuel_nil m 0 h

theorem load_loop_fuel_cons (m : RegMap) (f : Nat) (h : Heap) (b : Nat)
    (t : List Nat) :
    load_loop_fuel m (f + 1) h (b :: t) =
      match parseEntry (b :: t) with
      | none => none
      | some (i, valLen, data, rest) =>
        load_loop_fuel m f (applyEntry m h i valLen data) rest :=
  rfl

/-- Parsing one well-formed entry at the head of the stream: the id and
payload are recovered exactly, and the stream position advances past the
conditional padding byte. -/
theorem parseEntry_concat (i data tail : List Nat)
    (hL : i.length < 18446744073709551616)
    (hV : data.length < 18446744073709551616) :
    parseEntry (encodeSize i.length ++ (i ++ (encodeSize data.length ++
        (data ++ tail)))) =
      some (i, data.length, data,
        if (i.length + data.length) % 2 = 1 then tail.drop 1 else tail) := by
  have hencL := encodeSize_length i.length
  have hencV := encodeSize_length data.length
  have e0 : decodeSize (encodeSize i.length ++ (i ++ (encodeSize data.length ++
      (data ++ tail)))) = i.length := by
    rw [← decodeSize_take, List.take_left' hencL, decodeSize_encodeSize _ hL]
  have e4 : decodeSize (encodeSize data.length ++ (data ++ tail)) =
      data.length := by
    rw [← decodeSize_take, List.take_left' hencV, decodeSize_encodeSize _ hV]
  simp only [parseEntry, e0, e4, List.drop_left' hencL, List.drop_left' hencV,
    List.drop_left' (rfl : i.length = i.length),
    List.drop_left' (rfl : data.length = data.length),
    List.take_left' (rfl : i.length = i.length),
    List.take_left' (rfl : data.length = data.length)]
  split_ifs with c1 c2 c3 c4 c5
  · rfl
  · rfl
  · exfalso
    simp only [List.length_append, encodeSize_length] at c4
    omega
  · exfalso
    simp only [List.length_append, encodeSize_length] at c3
    omega
  · exfalso
    simp only [List.length_append, encodeSize_length] at c2
    omega
  · exfalso
    simp only [List.length_append, encodeSize_length] at c1
    omega

/-- Decoding one well-formed entry from the head of the stream: the heap is
updated by the merge policy and the loop continues on the rest of the
stream.  `pad` is the conditional padding byte of the entry. -/
theorem load_loop_step (m : RegMap) (h : Heap) (i : VarId)
    (data pad rest : List Nat)
    (hL : i.length < 18446744073709551616)
    (hV : data.length < 18446744073709551616)
    (hpad : pad.length = (i.length + data.length) % 2) :
    load_loop m h (encodeSize i.length ++ (i ++ (encodeSize data.length ++
        (data ++ (pad ++ rest))))) =
      load_loop m (applyEntry m h i data.length data) rest := by
  have hp' : parseEntry (encodeSize i.length ++ (i ++ (encodeSize data.length ++
      (data ++ (pad ++ rest))))) = some (i, data.length, data, rest) := by
    rw [parseEntry_concat i data (pad ++ rest) hL hV]
    rcases Nat.mod_two_eq_zero_or_one (i.length + data.length) with hpar | hpar
    · have hpnil : pad = [] := List.eq_nil_of_length_eq_zero (by omega)
      subst hpnil
      simp [hpar]
    · obtain ⟨a, ha⟩ := List.length_eq_one.mp (by omega : pad.length = 1)
      subst ha
      simp [hpar]
  have hlen16 := (parseEntry_some hp').2
  unfold load_loop
  obtain ⟨b, t, hbt⟩ : ∃ b t, encodeSize i.length ++ (i ++ (encodeSize data.length ++
      (data ++ (pad ++ rest)))) = b :: t := by
    cases hbig : encodeSize i.length ++ (i ++ (encodeSize data.length ++
        (data ++ (pad ++ rest)))) with
    | nil =>
      rw [hbig] at hlen16
      simp at hlen16
    | cons b t => exact ⟨b, t, rfl⟩
  rw [hbt] at hp' hlen16 ⊢
  simp only [List.length_cons] at hlen16 ⊢
  rw [load_loop_fuel_cons, hp']
  exact load_loop_fuel_congr m t.length rest.length
    (applyEntry m h i data.length data) rest (by omega) (le_refl _)

/-- Decoding a whole well-formed file: the loop succeeds and folds the
merge policy over the entries in file order. -/
theorem load_loop_entriesBytes (m : RegMap) (l : List (VarId × List Nat))
    (h : Heap)
    (hl : ∀ p ∈ l, p.1.length < 18446744073709551616 ∧
      p.2.length < 18446744073709551616) :
    load_loop m h (entriesBytes l) =
      some (l.foldl (fun acc p => applyEntry m acc p.1 p.2.length p.2) h) := by
  induction l generalizing h with
  | nil => exact load_loop_nil m h
  | cons p t ih =>
    obtain ⟨i, data⟩ := p
    have hL := (hl _ (List.mem_cons_self _ _)).1
    have hV := (hl _ (List.mem_cons_self _ _)).2
    have hpadlen : (if (i.length + data.length) % 2 = 1 then [(0 : Nat)]
        else []).length = (i.length + data.length) % 2 := by
      rcases Nat.mod_two_eq_zero_or_one (i.length + data.length) with hpar | hpar
      · rw [hpar]
        simp [hpar]
      · rw [hpar]
        simp [hpar]
    have hassoc : entriesBytes ((i, data) :: t) =
        encodeSize i.length ++ (i ++ (encodeSize data.length ++
          (data ++ ((if (i.length + data.length) % 2 = 1 then [(0 : Nat)]
            else []) ++ entriesBytes t)))) := by
      simp [entriesBytes, entryBytes, List.append_assoc]
    rw [hassoc,
      load_loop_step m h i data _ (entriesBytes t) hL hV hpadlen,
      ih _ (fun q hq => hl q (List.mem_cons_of_mem _ hq))]
    rfl

/-- The file written by `save_recipe` is the well-formed entry sequence
whose payloads are the registered variables' current bytes. -/
theorem save_bytes_eq_entriesBytes (m : RegMap) (h : Heap) :
    save_bytes m h =
      entriesBytes (m.map fun e => (e.1, readBytes h e.2.ptr e.2.size)) := by
  induction m with
  | nil => rfl
  | cons p t ih =>
    obtain ⟨i, item⟩ := p
    show encodeEntry h i item ++ save_bytes t h = _
    rw [ih]
    show _ = entryBytes i (readBytes h item.ptr item.size) ++ _
    congr 1
    simp [encodeEntry, entryBytes, readBytes_length]

/-- Frame lemma: folding the merge policy over entries whose target
regions are all disjoint from `[a, a + n)` leaves those bytes unchanged. -/
theorem foldl_applyEntry_preserve (m : RegMap)
    (l : List (VarId × List Nat)) (h : Heap) (a n : Nat) :
    (∀ p ∈ l, ∀ q, lookupItem m p.1 = some q →
      regionDisjoint q.ptr q.size a n) →
    readBytes (l.foldl (fun acc p => applyEntry m acc p.1 p.2.length p.2) h)
      a n = readBytes h a n := by
  induction l generalizing h with
  | nil =>
    intro _
    rfl
  | cons p t ih =>
    intro hd
    rw [List.foldl_cons, ih _ (fun e he q hq => hd e (List.mem_cons_of_mem _ he) q hq)]
    unfold applyEntry
    cases hq : lookupItem m p.1 with
    | none => rfl
    | some item =>
      by_cases hsz : item.size = p.2.length
      · simp only [hsz, if_pos]
        apply readBytes_writeBytes_disjoint
        have := regionDisjoint_symm (hd p (List.mem_cons_self _ _) item hq)
        unfold regionDisjoint at this ⊢
        omega
      · simp only [if_neg hsz]

/-- Round-trip readback: after folding the merge policy over the entries
saved from `(map1, h1)` into memory laid out by `map2` (same identifiers
and sizes, pairwise disjoint regions), every variable's region in `map2`
holds the bytes it had in `(map1, h1)`. -/
theorem foldl_applyEntry_readback (map2 : RegMap) (h1 : Heap)
    (hdisj : map2.Pairwise fun p q =>
      regionDisjoint p.2.ptr p.2.size q.2.ptr q.2.size)
    (map1 : RegMap) (h2 : Heap) :
    (map1.map Prod.fst).Nodup →
    (∀ p ∈ map1, ∃ q, lookupItem map2 p.1 = some q ∧ q.size = p.2.size) →
    ∀ p ∈ map1, ∀ q, lookupItem map2 p.1 = some q →
    readBytes ((map1.map fun e => (e.1, readBytes h1 e.2.ptr e.2.size)).foldl
        (fun acc e => applyEntry map2 acc e.1 e.2.length e.2) h2) q.ptr q.size
      = readBytes h1 p.2.ptr p.2.size := by
  induction map1 generalizing h2 with
  | nil =>
    intro _ _ p hp
    exact absurd hp (List.not_mem_nil p)
  | cons a t ih =>
    intro hnodup hcorr p hp q hq
    rw [List.map_cons] at hnodup
    have hnd := List.nodup_cons.mp hnodup
    rw [List.map_cons, List.foldl_cons]
    rcases List.mem_cons.mp hp with rfl | hpt
    · obtain ⟨q', hq', hsz'⟩ := hcorr p (List.mem_cons_self _ _)
      have hqq : q' = q := by
        rw [hq] at hq'
        exact (Option.some.inj hq').symm
      have hsz : q.size = p.2.size := by
        rw [← hqq]
        exact hsz'
      have happly : applyEntry map2 h2 p.1
          (readBytes h1 p.2.ptr p.2.size).length
          (readBytes h1 p.2.ptr p.2.size) =
          writeBytes h2 q.ptr (readBytes h1 p.2.ptr p.2.size) := by
        simp only [applyEntry, hq, readBytes_length]
        rw [if_pos hsz]
      have hdall : ∀ e ∈ (t.map fun e => (e.1, readBytes h1 e.2.ptr e.2.size)),
          ∀ q'', lookupItem map2 e.1 = some q'' →
          regionDisjoint q''.ptr q''.size q.ptr q.size := by
        intro e he q'' hq''
        obtain ⟨e0, he0, rfl⟩ := List.mem_map.mp he
        have hne : e0.1 ≠ p.1 := by
          intro hEq
          exact hnd.1 (hEq ▸ List.mem_map_of_mem Prod.fst he0)
        exact lookup_pairwise_disjoint hdisj hne hq'' hq
      show readBytes ((t.map fun e => (e.1, readBytes h1 e.2.ptr e.2.size)).foldl
          (fun acc e => applyEntry map2 acc e.1 e.2.length e.2) _) q.ptr q.size = _
      rw [foldl_applyEntry_preserve map2 _ _ q.ptr q.size hdall, happly]
      have hlen : q.size = (readBytes h1 p.2.ptr p.2.size).length := by
        rw [readBytes_length]
        exact hsz
      rw [hlen, readBytes_writeBytes_self]
    · exact ih _ hnd.2 (fun e he => hcorr e (List.mem_cons_of_mem _ he)) p hpt q hq

theorem save_bytes_append (m1 m2 : RegMap) (h : Heap) :
    save_bytes (m1 ++ m2) h = save_bytes m1 h ++ save_bytes m2 h := by
  induction m1 with
  | nil => rfl
  | cons p t ih =>
    obtain ⟨i, item⟩ := p
    show encodeEntry h i item ++ save_bytes (t ++ m2) h =
      encodeEntry h i item ++ save_bytes t h ++ save_bytes m2 h
    rw [ih, List.append_assoc]

/-- Number of consecutive `/` characters at the end of a string. -/
def trailingSeparators (s : List Char) : Nat :=
  (s.reverse.takeWhile fun c => c = '/').length

/-! Claim theorems. -/

/-- C4: when the initialized flag is false, both `save_recipe` and
`load_recipe` return false immediately, the file and the caller memory are
untouched, and the store (registry included) is unchanged. -/
theorem C4_uninitialized_guard (r : Recipe) (h : Heap) (file : List Nat)
    (hinit : r.initFlag = false) :
    save_recipe r h file = (false, r, file) ∧
    load_recipe r h file = (false, r, some h) := by
  constructor <;> simp [save_recipe, load_recipe, hinit]

/-- C4 witness at a concrete uninitialized store. -/
theorem C4_uninitialized_guard_witness :
    recipeDefault.initFlag = false ∧
    save_recipe recipeDefault zeroHeap [3] = (false, recipeDefault, [3]) ∧
    load_recipe recipeDefault zeroHeap [3] =
      (false, recipeDefault, some zeroHeap) :=
  ⟨rfl, (C4_uninitialized_guard recipeDefault zeroHeap [3] rfl).1,
    (C4_uninitialized_guard recipeDefault zeroHeap [3] rfl).2⟩

/-- C8: `add_variable` returns false and leaves the store unmutated iff
the identifier is already present, otherwise inserts the entry and returns
true; `remove_variable` returns false iff the identifier is absent,
otherwise erases the entry and returns true. -/
theorem C8_registry_add_remove (r : Recipe) (i : VarId) (var size : Nat) :
    (add_variable r i var size = (false, r) ↔
      (lookupItem r.map i).isSome = true) ∧
    ((lookupItem r.map i).isSome = false →
      add_variable r i var size =
        (true, ⟨r.folder, r.extension, r.name,
          r.map ++ [(i, ⟨var, size⟩)], r.initFlag⟩)) ∧
    (remove_variable r i = (false, r) ↔
      (lookupItem r.map i).isSome = false) ∧
    ((lookupItem r.map i).isSome = true →
      remove_variable r i =
        (true, ⟨r.folder, r.extension, r.name,
          eraseKey r.map i, r.initFlag⟩)) := by
  cases hs : (lookupItem r.map i).isSome <;>
    simp [add_variable, remove_variable, hs]

/-- C8 witness: the theorem applied to a concrete store and identifier. -/
theorem C8_registry_add_remove_witness :
    (add_variable recipeDefault [2] 5 4 = (false, recipeDefault) ↔
      (lookupItem recipeDefault.map [2]).isSome = true) ∧
    ((lookupItem recipeDefault.map [2]).isSome = false →
      add_variable recipeDefault [2] 5 4 =
        (true, ⟨recipeDefault.folder, recipeDefault.extension,
          recipeDefault.name, recipeDefault.map ++ [([2], ⟨5, 4⟩)],
          recipeDefault.initFlag⟩)) ∧
    (remove_variable recipeDefault [2] = (false, recipeDefault) ↔
      (lookupItem recipeDefault.map [2]).isSome = false) ∧
    ((lookupItem recipeDefault.map [2]).isSome = true →
      remove_variable recipeDefault [2] =
        (true, ⟨recipeDefault.folder, recipeDefault.extension,
          recipeDefault.name, eraseKey recipeDefault.map [2],
          recipeDefault.initFlag⟩)) :=
  C8_registry_add_remove recipeDefault [2] 5 4

/-- C10: no identifier validation — adding under the empty string
succeeds when it is not yet taken, the entry is found under the empty
key, and `save_recipe` encodes it with an id-length field of 0 like any
other entry. -/
theorem C10_empty_identifier (r : Recipe) (var size : Nat)
    (habs : lookupItem r.map [] = none) :
    (add_variable r [] var size).1 = true ∧
    lookupItem (add_variable r [] var size).2.map [] = some ⟨var, size⟩ ∧
    (∀ h : Heap, save_bytes (add_variable r [] var size).2.map h =
      save_bytes r.map h ++
        (encodeSize 0 ++ encodeSize size ++ readBytes h var size ++
          (if size % 2 = 1 then [0] else []))) := by
  have hs : (lookupItem r.map []).isSome = false := by
    rw [habs]
    rfl
  have hmap : (add_variable r [] var size).2.map =
      r.map ++ [([], ⟨var, size⟩)] := by
    simp [add_variable, hs]
  refine ⟨?_, ?_, ?_⟩
  · simp [add_variable, hs]
  · rw [hmap, lookupItem_append_right habs]
    rfl
  · intro h
    rw [hmap, save_bytes_append]
    congr 1
    show encodeEntry h [] ⟨var, size⟩ ++ [] = _
    simp [encodeEntry, readBytes]

/-- C10 witness at the default (empty) store. -/
theorem C10_empty_identifier_witness :
    lookupItem recipeDefault.map [] = none ∧
    ((add_variable recipeDefault [] 5 3).1 = true ∧
    lookupItem (add_variable recipeDefault [] 5 3).2.map [] = some ⟨5, 3⟩ ∧
    (∀ h : Heap, save_bytes (add_variable recipeDefault [] 5 3).2.map h =
      save_bytes recipeDefault.map h ++
        (encodeSize 0 ++ encodeSize 3 ++ readBytes h 5 3 ++
          (if 3 % 2 = 1 then [0] else [])))) :=
  ⟨rfl, C10_empty_identifier recipeDefault 5 3 rfl⟩

/-- C7 counterexample: assigning the non-empty folder string `a//` stores
`a//` unchanged, which ends with two path separators, not exactly one. -/
theorem C7_counterexample :
    ['a', '/', '/'] ≠ ([] : List Char) ∧
    (set_folder recipeDefault ['a', '/', '/']).folder = ['a', '/', '/'] ∧
    trailingSeparators ((set_folder recipeDefault ['a', '/', '/']).folder)
      ≠ 1 := by
  refine ⟨by decide, by decide, by decide⟩

/-- C7 (amended): a non-empty string assigned via `set_folder` is stored
ending with at least one separator (its last character is `/`, and nothing
is appended when it already ends with one); a non-empty string assigned
via `set_extension` is stored beginning with `.` (nothing prepended when
it already does); and `get_path` returns folder ++ name ++ extension. -/
theorem C7_path_normalization (r : Recipe) (f e : List Char)
    (hf : f ≠ []) (he : e ≠ []) :
    (set_folder r f).folder.getLast? = some '/' ∧
    (f.getLast? = some '/' → (set_folder r f).folder = f) ∧
    (set_extension r e).extension.head? = some '.' ∧
    (e.head? = some '.' → (set_extension r e).extension = e) ∧
    (∀ r' : Recipe, get_path r' = r'.folder ++ r'.name ++ r'.extension) := by
  refine ⟨?_, ?_, ?_, ?_, fun r' => rfl⟩
  · show (f ++ if f ≠ [] ∧ f.getLast? ≠ some '/' then ['/'] else []).getLast?
      = some '/'
    by_cases hb : f.getLast? = some '/'
    · rw [if_neg (by simp [hb]), List.append_nil]
      exact hb
    · rw [if_pos ⟨hf, hb⟩]
      exact List.getLast?_concat f
  · intro hb
    show (f ++ if f ≠ [] ∧ f.getLast? ≠ some '/' then ['/'] else []) = f
    rw [if_neg (by simp [hb]), List.append_nil]
  · show ((if e ≠ [] ∧ e.head? ≠ some '.' then ['.'] else []) ++ e).head?
      = some '.'
    by_cases hb : e.head? = some '.'
    · rw [if_neg (by simp [hb]), List.nil_append]
      exact hb
    · rw [if_pos ⟨he, hb⟩]
      rfl
  · intro hb
    show ((if e ≠ [] ∧ e.head? ≠ some '.' then ['.'] else []) ++ e) = e
    rw [if_neg (by simp [hb]), List.nil_append]

/-- C7 witness at concrete folder and extension strings. -/
theorem C7_path_normalization_witness :
    (['a'] ≠ ([] : List Char) ∧ ['x'] ≠ ([] : List Char)) ∧
    ((set_folder recipeDefault ['a']).folder.getLast? = some '/' ∧
    (['a'].getLast? = some '/' →
      (set_folder recipeDefault ['a']).folder = ['a']) ∧
    (set_extension recipeDefault ['x']).extension.head? = some '.' ∧
    (['x'].head? = some '.' →
      (set_extension recipeDefault ['x']).extension = ['x']) ∧
    (∀ r' : Recipe, get_path r' = r'.folder ++ r'.name ++ r'.extension)) :=
  ⟨⟨by decide, by decide⟩,
    C7_path_normalization recipeDefault ['a'] ['x'] (by decide) (by decide)⟩

/-- C9: the three-argument constructor stores the supplied folder and
extension verbatim (no normalization), so a constructed store can report a
different path than one configured with the same strings via the
setters. -/
theorem C9_constructor_verbatim :
    (∀ nm f e : List Char, (recipeOf nm f e).folder = f ∧
      (recipeOf nm f e).extension = e ∧ (recipeOf nm f e).name = nm) ∧
    get_path (recipeOf ['n'] ['f'] ['e']) ≠
      get_path (set_extension (set_folder (set_name recipeDefault ['n'])
        ['f']) ['e']) := by
  constructor
  · intro nm f e
    exact ⟨rfl, rfl, rfl⟩
  · decide

/-- C5: each setter forces `is_init` to false on an initialized store;
while a store is not initialized, `save_recipe` and `load_recipe` return
false; and only a successful `init` makes `is_init` true again. -/
theorem C5_reinitialization (r : Recipe) (h : Heap) (file : List Nat)
    (arg : List Char) (_hinit : r.initFlag = true) :
    is_init (set_name r arg) = false ∧
    is_init (set_folder r arg) = false ∧
    is_init (set_extension r arg) = false ∧
    (∀ r' : Recipe, is_init r' = false →
      (save_recipe r' h file).1 = false ∧ (load_recipe r' h file).1 = false) ∧
    (∀ (r' : Recipe) (fsOk : Bool), (init r' fsOk).1 = true →
      is_init (init r' fsOk).2 = true) := by
  refine ⟨rfl, rfl, rfl, ?_, ?_⟩
  · intro r' hr'
    have hflag : r'.initFlag = false := hr'
    constructor <;> simp [save_recipe, load_recipe, hflag]
  · intro r' fsOk hOk
    by_cases h1 : r'.name = []
    · simp [init, h1] at hOk
    · cases fsOk with
      | false => simp [init, h1] at hOk
      | true => simp [init, h1, is_init]

/-- C5 witness at a concrete initialized store. -/
theorem C5_reinitialization_witness :
    (⟨[], [], ['n'], [], true⟩ : Recipe).initFlag = true ∧
    (is_init (set_name ⟨[], [], ['n'], [], true⟩ ['m']) = false ∧
    is_init (set_folder ⟨[], [], ['n'], [], true⟩ ['m']) = false ∧
    is_init (set_extension ⟨[], [], ['n'], [], true⟩ ['m']) = false ∧
    (∀ r' : Recipe, is_init r' = false →
      (save_recipe r' zeroHeap []).1 = false ∧
      (load_recipe r' zeroHeap []).1 = false) ∧
    (∀ (r' : Recipe) (fsOk : Bool), (init r' fsOk).1 = true →
      is_init (init r' fsOk).2 = true)) :=
  ⟨rfl, C5_reinitialization ⟨[], [], ['n'], [], true⟩ zeroHeap [] ['m'] rfl⟩

/-- C2: a well-formed file entry whose identifier is unregistered, or whose
payload length differs from the registered variable's size, leaves the
caller memory unchanged, and the loop continues on the next entry exactly
as if the skipped entry were absent; an entire file of such an entry still
loads successfully. -/
theorem C2_skip_policy (m : RegMap) (h : Heap) (i : VarId)
    (data rest : List Nat)
    (hL : i.length < 18446744073709551616)
    (hV : data.length < 18446744073709551616)
    (hskip : ∀ it, lookupItem m i = some it → it.size ≠ data.length) :
    load_loop m h (entryBytes i data ++ rest) = load_loop m h rest ∧
    load_loop m h (entryBytes i data) = some h := by
  have happ : applyEntry m h i data.length data = h := by
    unfold applyEntry
    cases hq : lookupItem m i with
    | none => rfl
    | some it =>
      show (if it.size = data.length then writeBytes h it.ptr data else h) = h
      rw [if_neg (hskip it hq)]
  have hpadlen : (if (i.length + data.length) % 2 = 1 then [(0 : Nat)]
      else []).length = (i.length + data.length) % 2 := by
    rcases Nat.mod_two_eq_zero_or_one (i.length + data.length) with hpar | hpar <;>
      simp [hpar]
  have key : ∀ rest' : List Nat,
      load_loop m h (entryBytes i data ++ rest') = load_loop m h rest' := by
    intro rest'
    have hassoc : entryBytes i data ++ rest' =
        encodeSize i.length ++ (i ++ (encodeSize data.length ++ (data ++
          ((if (i.length + data.length) % 2 = 1 then [(0 : Nat)] else []) ++
            rest')))) := by
      simp [entryBytes, List.append_assoc]
    rw [hassoc, load_loop_step m h i data _ rest' hL hV hpadlen, happ]
  refine ⟨key rest, ?_⟩
  have h0 := key []
  rw [List.append_nil] at h0
  rw [h0, load_loop_nil]

/-- C2 witness: an entry with unknown identifier `[9]` against a registry
holding only `[1]`. -/
theorem C2_skip_policy_witness :
    (([9] : VarId).length < 18446744073709551616 ∧
      ([1, 2] : List Nat).length < 18446744073709551616) ∧
    (load_loop [([1], ⟨0, 4⟩)] zeroHeap (entryBytes [9] [1, 2] ++ []) =
      load_loop [([1], ⟨0, 4⟩)] zeroHeap [] ∧
    load_loop [([1], ⟨0, 4⟩)] zeroHeap (entryBytes [9] [1, 2]) =
      some zeroHeap) :=
  ⟨⟨by decide, by decide⟩,
    C2_skip_policy [([1], ⟨0, 4⟩)] zeroHeap [9] [1, 2] [] (by decide)
      (by decide) (fun it hit => by simp [lookupItem] at hit)⟩

/-- C3: on save, exactly one zero padding byte follows the value bytes iff
the id length plus the value length is odd and none when even; on load,
exactly one byte (whatever its value) is skipped after the payload iff the
same sum is odd and none when even. -/
theorem C3_padding (h : Heap) (i : VarId) (item : RecipeItem)
    (m : RegMap) (hm : Heap) (data rest : List Nat) (b : Nat)
    (hL : i.length < 18446744073709551616)
    (hV : data.length < 18446744073709551616) :
    ((i.length + item.size) % 2 = 1 →
      encodeEntry h i item =
        encodeSize i.length ++ i ++ encodeSize item.size ++
          readBytes h item.ptr item.size ++ [0]) ∧
    ((i.length + item.size) % 2 = 0 →
      encodeEntry h i item =
        encodeSize i.length ++ i ++ encodeSize item.size ++
          readBytes h item.ptr item.size) ∧
    ((i.length + data.length) % 2 = 1 →
      load_loop m hm (encodeSize i.length ++ (i ++ (encodeSize data.length ++
          (data ++ ([b] ++ rest))))) =
        load_loop m (applyEntry m hm i data.length data) rest) ∧
    ((i.length + data.length) % 2 = 0 →
      load_loop m hm (encodeSize i.length ++ (i ++ (encodeSize data.length ++
          (data ++ rest)))) =
        load_loop m (applyEntry m hm i data.length data) rest) := by
  refine ⟨?_, ?_, ?_, ?_⟩
  · intro hpar
    simp [encodeEntry, hpar]
  · intro hpar
    simp [encodeEntry, hpar]
  · intro hpar
    exact load_loop_step m hm i data [b] rest hL hV (by simp [hpar])
  · intro hpar
    have hstep := load_loop_step m hm i data [] rest hL hV (by simp [hpar])
    simpa using hstep

/-- C3 witness: a concrete odd-sum entry (id `[1]`, 2 payload bytes). -/
theorem C3_padding_witness :
    (([1] : VarId).length < 18446744073709551616 ∧
      ([5, 6] : List Nat).length < 18446744073709551616) ∧
    ((([1] : VarId).length + RecipeItem.size ⟨0, 2⟩) % 2 = 1 →
      encodeEntry zeroHeap [1] ⟨0, 2⟩ =
        encodeSize ([1] : VarId).length ++ [1] ++
          encodeSize (RecipeItem.size ⟨0, 2⟩) ++
          readBytes zeroHeap (RecipeItem.ptr ⟨0, 2⟩) (RecipeItem.size ⟨0, 2⟩)
          ++ [0]) ∧
    ((([1] : VarId).length + RecipeItem.size ⟨0, 2⟩) % 2 = 0 →
      encodeEntry zeroHeap [1] ⟨0, 2⟩ =
        encodeSize ([1] : VarId).length ++ [1] ++
          encodeSize (RecipeItem.size ⟨0, 2⟩) ++
          readBytes zeroHeap (RecipeItem.ptr ⟨0, 2⟩)
            (RecipeItem.size ⟨0, 2⟩)) ∧
    ((([1] : VarId).length + ([5, 6] : List Nat).length) % 2 = 1 →
      load_loop [] zeroHeap (encodeSize ([1] : VarId).length ++ ([1] ++
          (encodeSize ([5, 6] : List Nat).length ++ ([5, 6] ++ ([7] ++ []))))) =
        load_loop [] (applyEntry [] zeroHeap [1]
          ([5, 6] : List Nat).length [5, 6]) []) ∧
    ((([1] : VarId).length + ([5, 6] : List Nat).length) % 2 = 0 →
      load_loop [] zeroHeap (encodeSize ([1] : VarId).length ++ ([1] ++
          (encodeSize ([5, 6] : List Nat).length ++ ([5, 6] ++ [])))) =
        load_loop [] (applyEntry [] zeroHeap [1]
          ([5, 6] : List Nat).length [5, 6]) []) :=
  ⟨⟨by decide, by decide⟩,
    C3_padding zeroHeap [1] ⟨0, 2⟩ [] zeroHeap [5, 6] [] 7 (by decide)
      (by decide)⟩

/-- C6: load never changes the registry (the store comes back identical),
and a registered variable whose identifier appears in no file entry keeps
its exact prior bytes. -/
theorem C6_load_frame (r : Recipe) (h : Heap)
    (entries : List (VarId × List Nat))
    (hinit : r.initFlag = true)
    (hwf : ∀ p ∈ entries, p.1.length < 18446744073709551616 ∧
      p.2.length < 18446744073709551616)
    (hdisj : r.map.Pairwise fun p q =>
      regionDisjoint p.2.ptr p.2.size q.2.ptr q.2.size)
    (i0 : VarId) (it0 : RecipeItem)
    (hreg : lookupItem r.map i0 = some it0)
    (habs : ∀ p ∈ entries, p.1 ≠ i0) :
    ∃ h' : Heap,
      load_recipe r h (entriesBytes entries) = (true, r, some h') ∧
      readBytes h' it0.ptr it0.size = readBytes h it0.ptr it0.size := by
  refine ⟨entries.foldl (fun acc p => applyEntry r.map acc p.1 p.2.length p.2)
    h, ?_, ?_⟩
  · have hopen : load_recipe r h (entriesBytes entries) =
        (true, r, load_loop r.map h (entriesBytes entries)) := by
      simp [load_recipe, hinit]
    rw [hopen, load_loop_entriesBytes r.map entries h hwf]
  · exact foldl_applyEntry_preserve r.map entries h it0.ptr it0.size
      (fun p hp q hq => lookup_pairwise_disjoint hdisj (habs p hp) hq hreg)

/-- C6 witness: a file holding only an entry for the unregistered id `[9]`
against a store registering `[1]`. -/
theorem C6_load_frame_witness :
    ((⟨[], [], ['n'], [([1], ⟨0, 2⟩)], true⟩ : Recipe).initFlag = true ∧
      (∀ p ∈ [(([9] : VarId), [1, 2, 3])],
        p.1.length < 18446744073709551616 ∧
        p.2.length < 18446744073709551616) ∧
      lookupItem (⟨[], [], ['n'], [([1], ⟨0, 2⟩)], true⟩ : Recipe).map [1] =
        some ⟨0, 2⟩ ∧
      (∀ p ∈ [(([9] : VarId), [1, 2, 3])], p.1 ≠ [1])) ∧
    (∃ h' : Heap,
      load_recipe ⟨[], [], ['n'], [([1], ⟨0, 2⟩)], true⟩ zeroHeap
        (entriesBytes [([9], [1, 2, 3])]) =
        (true, ⟨[], [], ['n'], [([1], ⟨0, 2⟩)], true⟩, some h') ∧
      readBytes h' (RecipeItem.ptr ⟨0, 2⟩) (RecipeItem.size ⟨0, 2⟩) =
        readBytes zeroHeap (RecipeItem.ptr ⟨0, 2⟩) (RecipeItem.size ⟨0, 2⟩)) :=
  ⟨⟨rfl, by decide, rfl, by decide⟩,
    C6_load_frame ⟨[], [], ['n'], [([1], ⟨0, 2⟩)], true⟩ zeroHeap
      [([9], [1, 2, 3])] rfl (by decide)
      (List.pairwise_singleton _ _) [1] ⟨0, 2⟩ rfl (by decide)⟩

/-- C1: saving an initialized store and loading the file into
freshly-zeroed memory regions of identical identifiers and sizes restores
every variable's byte content exactly. -/
theorem C1_round_trip (folder ext nm : List Char) (map1 map2 : RegMap)
    (h1 : Heap) (file0 : List Nat)
    (hnodup : (map1.map Prod.fst).Nodup)
    (hwf : ∀ p ∈ map1, p.1.length < 18446744073709551616 ∧
      p.2.size < 18446744073709551616)
    (hcorr : ∀ p ∈ map1, ∃ q, lookupItem map2 p.1 = some q ∧
      q.size = p.2.size)
    (hdisj : map2.Pairwise fun p q =>
      regionDisjoint p.2.ptr p.2.size q.2.ptr q.2.size) :
    (save_recipe ⟨folder, ext, nm, map1, true⟩ h1 file0).1 = true ∧
    ∃ h2 : Heap,
      load_recipe ⟨folder, ext, nm, map2, true⟩ zeroHeap
        (save_recipe ⟨folder, ext, nm, map1, true⟩ h1 file0).2.2 =
        (true, ⟨folder, ext, nm, map2, true⟩, some h2) ∧
      ∀ p ∈ map1, ∀ q, lookupItem map2 p.1 = some q →
        readBytes h2 q.ptr q.size = readBytes h1 p.2.ptr p.2.size := by
  have hsave : save_recipe ⟨folder, ext, nm, map1, true⟩ h1 file0 =
      (true, ⟨folder, ext, nm, map1, true⟩, save_bytes map1 h1) := by
    simp [save_recipe]
  refine ⟨by rw [hsave], ?_⟩
  refine ⟨(map1.map fun e => (e.1, readBytes h1 e.2.ptr e.2.size)).foldl
    (fun acc e => applyEntry map2 acc e.1 e.2.length e.2) zeroHeap, ?_, ?_⟩
  · rw [hsave]
    have hopen : load_recipe ⟨folder, ext, nm, map2, true⟩ zeroHeap
        (save_bytes map1 h1) =
        (true, ⟨folder, ext, nm, map2, true⟩,
          load_loop map2 zeroHeap (save_bytes map1 h1)) := by
      simp [load_recipe]
    rw [hopen, save_bytes_eq_entriesBytes,
      load_loop_entriesBytes map2 _ zeroHeap ?hwf2]
    case hwf2 =>
      intro p hp
      obtain ⟨e, he, rfl⟩ := List.mem_map.mp hp
      exact ⟨(hwf e he).1, by rw [readBytes_length]; exact (hwf e he).2⟩
  · intro p hp q hq
    exact foldl_applyEntry_readback map2 h1 hdisj map1 zeroHeap hnodup hcorr
      p hp q hq

/-- C1 witness: one variable of 2 bytes saved from address 0 and restored
into zeroed memory at address 10. -/
theorem C1_round_trip_witness :
    ((([([1], ⟨0, 2⟩)] : RegMap).map Prod.fst).Nodup ∧
      (∀ p ∈ ([([1], ⟨0, 2⟩)] : RegMap),
        p.1.length < 18446744073709551616 ∧
        p.2.size < 18446744073709551616)) ∧
    ((save_recipe ⟨[], [], ['n'], [([1], ⟨0, 2⟩)], true⟩
        (fun a => a + 5) []).1 = true ∧
    ∃ h2 : Heap,
      load_recipe ⟨[], [], ['n'], [([1], ⟨10, 2⟩)], true⟩ zeroHeap
        (save_recipe ⟨[], [], ['n'], [([1], ⟨0, 2⟩)], true⟩
          (fun a => a + 5) []).2.2 =
        (true, ⟨[], [], ['n'], [([1], ⟨10, 2⟩)], true⟩, some h2) ∧
      ∀ p ∈ ([([1], ⟨0, 2⟩)] : RegMap), ∀ q,
        lookupItem [([1], ⟨10, 2⟩)] p.1 = some q →
        readBytes h2 q.ptr q.size =
          readBytes (fun a => a + 5) p.2.ptr p.2.size) :=
  ⟨⟨by decide, by decide⟩,
    C1_round_trip [] [] ['n'] [([1], ⟨0, 2⟩)] [([1], ⟨10, 2⟩)]
      (fun a => a + 5) [] (by decide) (by decide)
      (fun p hp => by
        rcases List.mem_singleton.mp hp with rfl
        exact ⟨⟨10, 2⟩, rfl, rfl⟩)
      (List.pairwise_singleton _ _)⟩

end rcp
